import Mathlib

/-!
A verification development for the ContextForge file discovery, filtering and
binary-detection pipeline (`contextforge.py`).

Modelling conventions, mirroring the Python source:

* Byte strings (`bytes`) are `List Nat` (each element a byte value).
* Python `str` values are Lean `String`s; all string operations used by the
  pipeline (`startswith`, `endswith`, `lower`, `strip`, lexicographic `<`,
  `os.path.basename`) are re-implemented over the underlying character lists
  so that every definition evaluates inside the kernel.  Python's `lower` and
  `strip` also act on non-ASCII characters; the pipeline only ever applies
  them to file names and ignore-rule lines, which are modelled here at ASCII
  precision.
* The filesystem seen by one invocation is an explicit tree (`FSList`): each
  directory entry is a file (with its byte content, modification time and
  error flags for `os.stat` / `open` failures) or a subdirectory.  `os.walk`
  enumerates a directory's subdirectories and files in listing order, which
  the model takes to be the order of the children list.
* Console output: the data sink receives `(path, content)` pairs; the actual
  serialisation (plain/XML/JSON/JSONL formats, line numbering, dataset-mode
  summaries) is the out-of-scope output collaborator and is not modelled.
  Diagnostics printed to the error console are modelled as `Diag` values.
* A compiled regular expression is modelled as its match predicate
  `String → Bool` (the CLI validates the pattern before traversal starts).
-/

/-! ### Character and string primitives (Python `str` operations) -/

/-- ASCII lower-casing of one character, as `str.lower` acts on ASCII. -/
def charLower (c : Char) : Char :=
  if 'A'.toNat ≤ c.toNat && c.toNat ≤ 'Z'.toNat then Char.ofNat (c.toNat + 32) else c

/-- `s.lower()` at ASCII precision. -/
def strLower (s : String) : String := ⟨s.data.map charLower⟩

/-- `s.startswith(p)`. -/
def strStartsWith (s p : String) : Bool := p.data.isPrefixOf s.data

/-- `s.endswith(p)`. -/
def strEndsWith (s p : String) : Bool := p.data.isSuffixOf s.data

/-- Lexicographic comparison of character lists by code point, the order
Python uses to compare `str` values (as in `sorted(files)`). -/
def charListLt : List Char → List Char → Bool
  | [], [] => false
  | [], _ :: _ => true
  | _ :: _, [] => false
  | a :: as, b :: bs =>
    if a.toNat < b.toNat then true
    else if b.toNat < a.toNat then false
    else charListLt as bs

/-- `s < t` on Python strings. -/
def strLt (s t : String) : Bool := charListLt s.data t.data

/-- `os.path.basename`: the part of the path after the last `/`. -/
def basename (p : String) : String :=
  ⟨p.data.foldl (fun acc c => if c = '/' then [] else acc ++ [c]) []⟩

/-- The ASCII whitespace characters removed by Python's `str.strip()`. -/
def pySpace (c : Char) : Bool :=
  c == ' ' || c == '\t' || c == '\n' || c == '\r' || c == '\x0b' || c == '\x0c'

/-- `s.strip()` (ASCII whitespace). -/
def pyStrip (s : String) : String :=
  ⟨((s.data.dropWhile pySpace).reverse.dropWhile pySpace).reverse⟩

/-- UTF-8 bytes of an ASCII string, for building file contents in examples. -/
def strBytes (s : String) : List Nat := s.data.map Char.toNat

/-! ### Strict UTF-8 decoding (`open(path, "r", encoding="utf-8")`)

Python's `utf-8` codec in its default `strict` mode accepts exactly the
RFC 3629 encodings: no continuation-byte leads, no overlong forms
(leads `0xC0`/`0xC1`, or out-of-range continuations after `0xE0`/`0xF0`),
no surrogates (`0xED` followed by `0xA0`..`0xBF`), nothing above
`U+10FFFF` (leads above `0xF4`, or `0xF4` followed by `0x90`..).
An invalid sequence raises `UnicodeDecodeError`, modelled as `none`. -/

def utf8Decode : List Nat → Option (List Char)
  | [] => some []
  | b0 :: rest =>
    if b0 < 0x80 then
      (utf8Decode rest).map (fun cs => Char.ofNat b0 :: cs)
    else if b0 < 0xC2 then none
    else if b0 < 0xE0 then
      match rest with
      | b1 :: rest1 =>
        if 0x80 ≤ b1 && b1 < 0xC0 then
          (utf8Decode rest1).map (fun cs =>
            Char.ofNat ((b0 - 0xC0) * 0x40 + (b1 - 0x80)) :: cs)
        else none
      | [] => none
    else if b0 < 0xF0 then
      match rest with
      | b1 :: b2 :: rest2 =>
        let lo1 : Nat := if b0 = 0xE0 then 0xA0 else 0x80
        let hi1 : Nat := if b0 = 0xED then 0xA0 else 0xC0
        if lo1 ≤ b1 && b1 < hi1 && 0x80 ≤ b2 && b2 < 0xC0 then
          (utf8Decode rest2).map (fun cs =>
            Char.ofNat ((b0 - 0xE0) * 0x1000 + (b1 - 0x80) * 0x40 + (b2 - 0x80)) :: cs)
        else none
      | _ => none
    else if b0 < 0xF5 then
      match rest with
      | b1 :: b2 :: b3 :: rest3 =>
        let lo1 : Nat := if b0 = 0xF0 then 0x90 else 0x80
        let hi1 : Nat := if b0 = 0xF4 then 0x90 else 0xC0
        if lo1 ≤ b1 && b1 < hi1 && 0x80 ≤ b2 && b2 < 0xC0 && 0x80 ≤ b3 && b3 < 0xC0 then
          (utf8Decode rest3).map (fun cs =>
            Char.ofNat ((b0 - 0xF0) * 0x40000 + (b1 - 0x80) * 0x1000
              + (b2 - 0x80) * 0x40 + (b3 - 0x80)) :: cs)
        else none
      | _ => none
    else none

/-- Universal-newline translation performed by text-mode reads
(`"\r\n"` and `"\r"` both become `"\n"`). -/
def universalNewlines : List Char → List Char
  | [] => []
  | '\r' :: '\n' :: t => '\n' :: universalNewlines t
  | '\r' :: t => '\n' :: universalNewlines t
  | c :: t => c :: universalNewlines t

/-- Reading a file's bytes as text: `open(path, "r", encoding="utf-8").read()`.
`none` models the `UnicodeDecodeError` raised on invalid UTF-8. -/
def utf8DecodeString (bs : List Nat) : Option String :=
  (utf8Decode bs).map (fun cs => ⟨universalNewlines cs⟩)

/-! ### `fnmatch.fnmatch` (POSIX: `os.path.normcase` is the identity)

Patterns support `*`, `?` and `[...]` character classes with `!` negation and
`a-z` ranges; an unclosed `[` is a literal, and a `]` right after `[` or `[!`
belongs to the class body, exactly as in `fnmatch.translate`. -/

/-- Scan a class body up to the closing `]`; `none` when there is none. -/
def splitClassAux : List Char → Option (List Char × List Char)
  | [] => none
  | ']' :: rest => some ([], rest)
  | c :: rest => (splitClassAux rest).map (fun p => (c :: p.1, p.2))

/-- Class-body scan that lets a leading `]` belong to the body. -/
def splitClassBody : List Char → Option (List Char × List Char)
  | ']' :: rest => (splitClassAux rest).map (fun p => (']' :: p.1, p.2))
  | l => splitClassAux l

/-- Split `pat` (the pattern after an opening `[`) into the negation flag,
the class body and the remaining pattern. -/
def splitClass : List Char → Option (Bool × List Char × List Char)
  | '!' :: rest => (splitClassBody rest).map (fun p => (true, p.1, p.2))
  | l => (splitClassBody l).map (fun p => (false, p.1, p.2))

/-- Whether a character matches a class body (`a-z` ranges, else literals). -/
def classMatches : List Char → Char → Bool
  | [], _ => false
  | a :: '-' :: b :: rest, c =>
    (a.toNat ≤ c.toNat && c.toNat ≤ b.toNat) || classMatches rest c
  | a :: rest, c => (a == c) || classMatches rest c

/-- Glob matching on character lists.  Every recursive call shortens
`pattern ++ s`, so fuel `|pattern| + |s| + 1` always suffices; the fuel-0
answer is never reached from `fnmatch`. -/
def fnmatchAux : Nat → List Char → List Char → Bool
  | 0, _, _ => false
  | _ + 1, [], [] => true
  | _ + 1, [], _ :: _ => false
  | f + 1, '*' :: ps, s =>
    fnmatchAux f ps s ||
      (match s with
       | [] => false
       | _ :: s2 => fnmatchAux f ('*' :: ps) s2)
  | f + 1, '?' :: ps, s =>
    (match s with
     | [] => false
     | _ :: s2 => fnmatchAux f ps s2)
  | f + 1, '[' :: ps, s =>
    (match splitClass ps with
     | some (neg, body, ps2) =>
       match s with
       | [] => false
       | c :: s2 =>
         (if neg then !(classMatches body c) else classMatches body c)
           && fnmatchAux f ps2 s2
     | none =>
       match s with
       | [] => false
       | c :: s2 => ('[' == c) && fnmatchAux f ps s2)
  | f + 1, p :: ps, s =>
    (match s with
     | [] => false
     | c :: s2 => (p == c) && fnmatchAux f ps s2)

/-- `fnmatch.fnmatch(name, pattern)`. -/
def fnmatch (name pattern : String) : Bool :=
  fnmatchAux (pattern.data.length + name.data.length + 1) pattern.data name.data

/-! ### Ignore-rule engine (`should_ignore`, `read_gitignore`) -/

/-- `should_ignore(path, ignore_rules)`.  The source computes
`os.path.basename(path)` and also consults `os.path.isdir(path)`; in the
model the caller (the walk) knows whether the entry is a directory and passes
that as `is_dir`. -/
def should_ignore (path : String) (is_dir : Bool) (ignore_rules : List String) : Bool :=
  ignore_rules.any (fun rule =>
    fnmatch (basename path) rule ||
      (is_dir && fnmatch (basename path ++ "/") rule))

/-- `read_gitignore(directory)`.  The one-time filesystem lookup of
`directory/.gitignore` is modelled by the argument: `none` when no rules file
exists, `some lines` for the file's lines (iterating a Python text file
yields each line; its trailing newline is immaterial here because `strip`
removes it and the `#` test looks at the first character). -/
def read_gitignore (gitignoreFile : Option (List String)) : List String :=
  match gitignoreFile with
  | some lines =>
    (lines.filter (fun line => pyStrip line != "" && !(strStartsWith line "#"))).map pyStrip
  | none => []

/-! ### The filesystem model -/

/-- Per-file data: raw bytes on disk, `st_mtime`, and whether `os.stat`
resp. `open` fail with an `OSError` for this file. -/
structure FileData where
  content : List Nat
  mtime : Int
  statError : Bool
  readError : Bool
deriving Repr, DecidableEq

mutual
/-- One directory entry: a regular file or a subdirectory. -/
inductive FSEntry where
  | file (name : String) (data : FileData)
  | dir (name : String) (children : FSList)
/-- A directory listing, in the order `os.scandir` reports entries. -/
inductive FSList where
  | nil
  | cons (head : FSEntry) (tail : FSList)
end

/-- The subdirectories of a listing, in order (the `dirs` of `os.walk`). -/
def FSList.dirsOf : FSList → List (String × FSList)
  | .nil => []
  | .cons (.file _ _) es => es.dirsOf
  | .cons (.dir n cs) es => (n, cs) :: es.dirsOf

/-- The regular files of a listing, in order (the `files` of `os.walk`). -/
def FSList.filesOf : FSList → List (String × FileData)
  | .nil => []
  | .cons (.file n d) es => (n, d) :: es.filesOf
  | .cons (.dir _ _) es => es.filesOf

/-- Nesting depth of a listing (0 for a listing without subdirectories). -/
def FSList.depthL : FSList → Nat
  | .nil => 0
  | .cons (.file _ _) es => es.depthL
  | .cons (.dir _ cs) es => max (cs.depthL + 1) es.depthL

/-- All entry names in the tree are free of `/`, as names of real directory
entries are.  (Entry names are single path segments.) -/
def FSList.namesOkL : FSList → Bool
  | .nil => true
  | .cons (.file n _) es => !(n.data.contains '/') && es.namesOkL
  | .cons (.dir n cs) es => !(n.data.contains '/') && cs.namesOkL && es.namesOkL

/-- Diagnostics printed to the error console (and, for `clickException`, the
message of a raised `click.ClickException`). -/
inductive Diag where
  | readWarning (path : String)
  | errorProcessing (path : String)
  | clickException (path : String)
deriving Repr, DecidableEq

/-- The filtering options handed from the CLI to the traversal (the writer-
and format-related parameters belong to the output collaborator). -/
structure Config where
  extensions : List String
  include_hidden : Bool
  ignore_files_only : Bool
  ignore_gitignore : Bool
  ignore_patterns : List String
  regex_pattern : Option (String → Bool)
  min_size : Option Nat
  max_size : Option Nat
  modified_after : Option Int

/-! ### Inclusion predicate (`should_include_file`) -/

/-- `should_include_file`.  `stats = os.stat(file_path)` is modelled by `d`:
`d.statError` is the `OSError` case, `d.content.length` is `st_size` and
`d.mtime` is `st_mtime` (the source compares `datetime` values converted
from the timestamps, an order-isomorphic comparison).  An empty extension
tuple and an absent regex are falsy in the source's `if extensions and ...` /
`if regex_pattern and ...` guards. -/
def should_include_file (file_path : String) (extensions : List String)
    (regex_pattern : Option (String → Bool)) (min_size max_size : Option Nat)
    (modified_after : Option Int) (d : FileData) : Bool :=
  if !extensions.isEmpty && !(extensions.any (fun ext => strEndsWith file_path ext)) then false
  else if (match regex_pattern with | some r => !(r file_path) | none => false) then false
  else if d.statError then false
  else if (match min_size with | some m => decide (d.content.length < m) | none => false) then false
  else if (match max_size with | some m => decide (m < d.content.length) | none => false) then false
  else if (match modified_after with | some t => decide (d.mtime < t) | none => false) then false
  else true

/-! ### Binary classifier (`is_binary_content`, `is_binary_file`) -/

/-- The `text_characters` bytes: `range(32, 127)`, `range(128, 256)` and
`b"\n\r\t\f\b"`. -/
def text_characters : List Nat :=
  List.range' 32 95 ++ List.range' 128 128 ++ [10, 13, 9, 12, 8]

/-- `is_binary_content(content, sample_size)` (the source's default sample
size is 1024; callers pass it explicitly here).  The source compares
`non_text / len(content[:sample_size]) > 0.30` in IEEE double arithmetic;
since `0.30` rounds to a double strictly below `3/10`, and the exact
quotient `non_text / n` is at distance at least `1/(10n) ≫ 2⁻⁵²` from `3/10`
whenever it differs, the float comparison agrees with the exact rational one,
written here as `3 * n < 10 * non_text`.  Callers guarantee a non-empty
sample (the source would raise `ZeroDivisionError` on empty content;
`is_binary_file` only calls this with a non-empty header). -/
def is_binary_content (content : List Nat) (sample_size : Nat) : Bool :=
  if (content.take sample_size).contains 0 then true
  else
    decide (3 * (content.take sample_size).length <
      10 * (content.take sample_size).countP (fun b => !(text_characters.contains b)))

/-- The known-binary extension set `BINARY_EXTENSIONS`. -/
def BINARY_EXTENSIONS : List String :=
  [".exe", ".dll", ".so", ".dylib", ".bin", ".pyc", ".pyo",
   ".png", ".jpg", ".jpeg", ".gif", ".bmp", ".ico", ".webp",
   ".pdf", ".doc", ".docx", ".xls", ".xlsx",
   ".zip", ".tar", ".gz", ".7z", ".rar",
   ".class", ".jar", ".war", ".ear"]

/-- The magic-number table `MAGIC_NUMBERS` (byte signature, extension). -/
def MAGIC_NUMBERS : List (List Nat × String) :=
  [([0x89, 0x50, 0x4E, 0x47, 0x0D, 0x0A, 0x1A, 0x0A], ".png"),
   ([0xFF, 0xD8, 0xFF], ".jpg"),
   ([0x47, 0x49, 0x46, 0x38], ".gif"),
   ([0x50, 0x4B, 0x03, 0x04], ".zip"),
   ([0x25, 0x50, 0x44, 0x46], ".pdf")]

/-- `is_binary_file(file_path)`.  Returns the verdict together with the
diagnostics printed while computing it: an `OSError`/`IOError` when opening
or reading (modelled by `d.readError`) prints a warning and yields `true`.
The header is the first 8192 bytes of the file. -/
def is_binary_file (file_path : String) (d : FileData) : Bool × List Diag :=
  if BINARY_EXTENSIONS.any (fun ext => strEndsWith (strLower file_path) ext) then
    (true, [])
  else if d.readError then
    (true, [.readWarning file_path])
  else
    let header := d.content.take 8192
    if header.isEmpty then (false, [])
    else if MAGIC_NUMBERS.any (fun mg => mg.1.isPrefixOf header) then (true, [])
    else (is_binary_content header 1024, [])

/-! ### Traversal engine (`process_local_path`) -/

/-- Insertion of one `(name, data)` pair into a name-sorted list. -/
def insertFile (x : String × FileData) :
    List (String × FileData) → List (String × FileData)
  | [] => [x]
  | y :: ys => if strLt y.1 x.1 then y :: insertFile x ys else x :: y :: ys

/-- `sorted(files)`: sort a directory's files by name (names within one
directory are distinct, so stability is immaterial). -/
def sortFiles (l : List (String × FileData)) : List (String × FileData) :=
  l.foldr insertFile []

/-- The body of the per-file loop of the directory walk (source lines
391-418): inclusion predicate, binary classifier, then the text read whose
`UnicodeDecodeError` is caught and turns into a silent skip.  An `OSError`
at the text read would escape this loop, but is unreachable because a file
whose read fails is already classified binary.  Returns the emitted
`(path, content)` pairs and diagnostics. -/
def processWalkFile (cfg : Config) (file_path : String) (d : FileData) :
    List (String × String) × List Diag :=
  if should_include_file file_path cfg.extensions cfg.regex_pattern
      cfg.min_size cfg.max_size cfg.modified_after d then
    let bd := is_binary_file file_path d
    if bd.1 then ([], bd.2)
    else
      match utf8DecodeString d.content with
      | some s => ([(file_path, s)], bd.2)
      | none => ([], bd.2)
  else ([], [])

/-- The hidden-entry filter of one walk level (`if not include_hidden:`),
applied alike to the `dirs` and `files` name lists. -/
def hiddenFilter {α : Type} (include_hidden : Bool) (l : List (String × α)) :
    List (String × α) :=
  if include_hidden then l
  else l.filter (fun nd => !(strStartsWith nd.1 "."))

/-- The gitignore-rule pruning of `dirs` (`if not ignore_gitignore and
gitignore_rules:`); `--ignore-files-only` keeps every directory. -/
def gitignoreFilterDirs (cfg : Config) (rules : List String) (root : String)
    (l : List (String × FSList)) : List (String × FSList) :=
  if !cfg.ignore_gitignore && !rules.isEmpty then
    l.filter (fun nd =>
      cfg.ignore_files_only || !(should_ignore (root ++ "/" ++ nd.1) true rules))
  else l

/-- The gitignore-rule filtering of `files`. -/
def gitignoreFilterFiles (cfg : Config) (rules : List String) (root : String)
    (l : List (String × FileData)) : List (String × FileData) :=
  if !cfg.ignore_gitignore && !rules.isEmpty then
    l.filter (fun nd => !(should_ignore (root ++ "/" ++ nd.1) false rules))
  else l

/-- The ad-hoc `--ignore` pattern pruning of `dirs` (`if ignore_patterns:`),
suppressed by `--ignore-files-only`. -/
def patternFilterDirs (cfg : Config) (l : List (String × FSList)) :
    List (String × FSList) :=
  if !cfg.ignore_patterns.isEmpty then
    if cfg.ignore_files_only then l
    else l.filter (fun nd =>
      !(cfg.ignore_patterns.any (fun pattern => fnmatch nd.1 pattern)))
  else l

/-- The ad-hoc `--ignore` pattern filtering of `files`. -/
def patternFilterFiles (cfg : Config) (l : List (String × FileData)) :
    List (String × FileData) :=
  if !cfg.ignore_patterns.isEmpty then
    l.filter (fun nd =>
      !(cfg.ignore_patterns.any (fun pattern => fnmatch nd.1 pattern)))
  else l

/-- The in-place pruning of `dirs` at one walk level: hidden filter, then
gitignore rules, then the ad-hoc `--ignore` patterns, in source order. -/
def levelDirs (cfg : Config) (rules : List String) (root : String)
    (children : FSList) : List (String × FSList) :=
  patternFilterDirs cfg
    (gitignoreFilterDirs cfg rules root
      (hiddenFilter cfg.include_hidden children.dirsOf))

/-- The filtering of `files` at one walk level, in source order. -/
def levelFiles (cfg : Config) (rules : List String) (root : String)
    (children : FSList) : List (String × FileData) :=
  patternFilterFiles cfg
    (gitignoreFilterFiles cfg rules root
      (hiddenFilter cfg.include_hidden children.filesOf))

/-- Concatenate per-item results in order (output pairs and diagnostics). -/
def concatResults (l : List (List (String × String) × List Diag)) :
    List (String × String) × List Diag :=
  l.foldr (fun r acc => (r.1 ++ acc.1, r.2 ++ acc.2)) ([], [])

/-- The `for root, dirs, files in os.walk(path)` loop: at each directory,
filter `dirs` in place (so pruned subdirectories are never visited), filter
`files`, process the surviving files in sorted order, then descend into the
surviving subdirectories in listing order.  The walk recurses along the
tree's depth, supplied as fuel by `process_local_path`; one unit is consumed
per directory level, so `depthL + 1` always suffices and the fuel-0 answer is
never reached. -/
def walkAux : Nat → Config → List String → String → FSList →
    List (String × String) × List Diag
  | 0, _, _, _, _ => ([], [])
  | fuel + 1, cfg, rules, root, children =>
    concatResults
      ((sortFiles (levelFiles cfg rules root children)).map
        (fun nd => processWalkFile cfg (root ++ "/" ++ nd.1) nd.2)
      ++ (levelDirs cfg rules root children).map
        (fun nd => walkAux fuel cfg rules (root ++ "/" ++ nd.1) nd.2))

/-- What the root path names on the filesystem: nothing, a regular file, or
a directory with the given listing. -/
inductive PathTarget where
  | missing
  | file (data : FileData)
  | dir (children : FSList)

/-- Result of `process_local_path`: emitted `(path, content)` pairs, printed
diagnostics, and the function's return code. -/
structure ProcResult where
  output : List (String × String)
  diags : List Diag
  returncode : Nat
deriving Repr, DecidableEq

/-- `process_local_path(path, ...)`.  A missing path prints an error and
returns 1.  A file root applies the inclusion predicate and the binary
classifier and emits the decoded content; its text read is *not* guarded by
a `UnicodeDecodeError` handler, so a decode failure propagates to the
surrounding `except Exception`, which prints an error and returns 1.  A
directory root runs the walk (whose per-file decode failures are caught
inside the loop). -/
def process_local_path (path : String) (target : PathTarget) (cfg : Config)
    (gitignore_rules : List String) : ProcResult :=
  match target with
  | .missing => ⟨[], [.errorProcessing path], 1⟩
  | .file d =>
    if should_include_file path cfg.extensions cfg.regex_pattern
        cfg.min_size cfg.max_size cfg.modified_after d then
      let bd := is_binary_file path d
      if bd.1 then ⟨[], bd.2, 0⟩
      else
        match utf8DecodeString d.content with
        | some s => ⟨[(path, s)], bd.2, 0⟩
        | none => ⟨[], bd.2 ++ [.errorProcessing path], 1⟩
    else ⟨[], [], 0⟩
  | .dir children =>
    let r := walkAux (children.depthL + 1) cfg gitignore_rules path children
    ⟨r.1, r.2, 0⟩

/-! ### The CLI loop over roots (`cli`, local paths) -/

/-- One root as the CLI sees it: its path argument, what the path names, and
the lines of the root's `.gitignore` rules file when one exists (the
`read_gitignore(path)` lookup).  Remote-repository URLs are handled by the
out-of-scope cloning collaborator and are not modelled. -/
structure RootSpec where
  path : String
  target : PathTarget
  gitignoreFile : Option (List String)

/-- Result of the CLI loop: emitted pairs, diagnostics, and whether the loop
ran to completion (`false` when a `click.ClickException` aborted it). -/
structure CliResult where
  output : List (String × String)
  diags : List Diag
  completed : Bool
deriving Repr, DecidableEq

/-- The body of one iteration of the CLI's path loop for an existing root:
compute the root's gitignore rules, run `process_local_path`, and on a
non-zero result raise `click.ClickException` — which the loop's handler
prints and re-raises, aborting the remaining roots (`restResult` is
discarded). -/
def cli_cont (cfg : Config) (r : RootSpec) (t : PathTarget)
    (restResult : CliResult) : CliResult :=
  let rules := if cfg.ignore_gitignore then [] else read_gitignore r.gitignoreFile
  let res := process_local_path r.path t cfg rules
  if res.returncode ≠ 0 then
    ⟨res.output, res.diags ++ [.clickException r.path], false⟩
  else
    ⟨res.output ++ restResult.output, res.diags ++ restResult.diags,
      restResult.completed⟩

/-- The CLI's `for path in paths` loop (source lines 630-685), for local
roots.  A path that does not exist raises `click.ClickException` before the
`try` block, so nothing of it is processed and the remaining roots are never
reached (the exception's message surfaces on the error console, modelled as
the `clickException` diagnostic). -/
def cli_run (cfg : Config) : List RootSpec → CliResult
  | [] => ⟨[], [], true⟩
  | r :: rest =>
    match r.target with
    | .missing => ⟨[], [.clickException r.path], false⟩
    | .file d => cli_cont cfg r (.file d) (cli_run cfg rest)
    | .dir cs => cli_cont cfg r (.dir cs) (cli_run cfg rest)

/-! ### Concrete configurations and data used by examples -/

/-- All CLI filter options at their defaults. -/
def defaultConfig : Config := ⟨[], false, false, false, [], none, none, none, none⟩

/-- Defaults except `--include-hidden`. -/
def hiddenConfig : Config := ⟨[], true, false, false, [], none, none, none, none⟩

/-- A readable, stat-able two-byte ASCII file containing `"hi"`. -/
def hiData : FileData := ⟨[104, 105], 0, false, false⟩

/-! ### Lemmas about the traversal -/

theorem mem_hiddenFilter {α : Type} {b : Bool} {l : List (String × α)}
    {nd : String × α} (h : nd ∈ hiddenFilter b l) :
    nd ∈ l ∧ (b = false → strStartsWith nd.1 "." = false) := by
  unfold hiddenFilter at h
  split at h
  · rename_i hb
    exact ⟨h, fun hf => by rw [hf] at hb; cases hb⟩
  · rw [List.mem_filter] at h
    exact ⟨h.1, fun _ => by simpa using h.2⟩

theorem mem_gitignoreFilterFiles {cfg : Config} {rules : List String}
    {root : String} {l : List (String × FileData)} {nd : String × FileData}
    (h : nd ∈ gitignoreFilterFiles cfg rules root l) : nd ∈ l := by
  unfold gitignoreFilterFiles at h
  split at h
  · exact (List.mem_filter.1 h).1
  · exact h

theorem mem_gitignoreFilterDirs {cfg : Config} {rules : List String}
    {root : String} {l : List (String × FSList)} {nd : String × FSList}
    (h : nd ∈ gitignoreFilterDirs cfg rules root l) : nd ∈ l := by
  unfold gitignoreFilterDirs at h
  split at h
  · exact (List.mem_filter.1 h).1
  · exact h

theorem mem_patternFilterFiles {cfg : Config} {l : List (String × FileData)}
    {nd : String × FileData} (h : nd ∈ patternFilterFiles cfg l) : nd ∈ l := by
  unfold patternFilterFiles at h
  split at h
  · exact (List.mem_filter.1 h).1
  · exact h

theorem mem_patternFilterDirs {cfg : Config} {l : List (String × FSList)}
    {nd : String × FSList} (h : nd ∈ patternFilterDirs cfg l) : nd ∈ l := by
  unfold patternFilterDirs at h
  split at h
  · split at h
    · exact h
    · exact (List.mem_filter.1 h).1
  · exact h

theorem mem_levelFiles {cfg : Config} {rules : List String} {root : String}
    {children : FSList} {nd : String × FileData}
    (h : nd ∈ levelFiles cfg rules root children) :
    nd ∈ children.filesOf ∧
      (cfg.include_hidden = false → strStartsWith nd.1 "." = false) := by
  unfold levelFiles at h
  have h2 := mem_gitignoreFilterFiles (mem_patternFilterFiles h)
  exact mem_hiddenFilter h2

theorem mem_levelDirs {cfg : Config} {rules : List String} {root : String}
    {children : FSList} {nd : String × FSList}
    (h : nd ∈ levelDirs cfg rules root children) :
    nd ∈ children.dirsOf ∧
      (cfg.include_hidden = false → strStartsWith nd.1 "." = false) := by
  unfold levelDirs at h
  have h2 := mem_gitignoreFilterDirs (mem_patternFilterDirs h)
  exact mem_hiddenFilter h2

theorem mem_insertFile {x y : String × FileData} {l : List (String × FileData)} :
    x ∈ insertFile y l ↔ x = y ∨ x ∈ l := by
  induction l with
  | nil => simp [insertFile]
  | cons z t ih =>
    unfold insertFile
    split
    · simp only [List.mem_cons, ih]
      tauto
    · simp only [List.mem_cons]

theorem mem_sortFiles {x : String × FileData} {l : List (String × FileData)} :
    x ∈ sortFiles l ↔ x ∈ l := by
  induction l with
  | nil => simp [sortFiles]
  | cons y t ih =>
    unfold sortFiles at ih ⊢
    simp [List.foldr_cons, mem_insertFile, ih]

theorem mem_concatResults {l : List (List (String × String) × List Diag)}
    {p : String × String} :
    p ∈ (concatResults l).1 ↔ ∃ r ∈ l, p ∈ r.1 := by
  induction l with
  | nil => simp [concatResults]
  | cons r t ih =>
    unfold concatResults at ih ⊢
    simp [List.foldr_cons, ih]

theorem processWalkFile_path {cfg : Config} {fp : String} {d : FileData}
    {p c : String} (h : (p, c) ∈ (processWalkFile cfg fp d).1) : p = fp := by
  by_cases h1 : should_include_file fp cfg.extensions cfg.regex_pattern
      cfg.min_size cfg.max_size cfg.modified_after d
  · by_cases h2 : (is_binary_file fp d).1
    · simp [processWalkFile, h1, h2] at h
    · cases hdec : utf8DecodeString d.content with
      | some s => simp [processWalkFile, h1, h2, hdec] at h; exact h.1
      | none => simp [processWalkFile, h1, h2, hdec] at h
  · simp [processWalkFile, h1] at h

theorem filesOf_namesOk : ∀ (l : FSList) (n : String) (d : FileData),
    l.namesOkL = true → (n, d) ∈ l.filesOf → n.data.contains '/' = false
  | .nil, n, d => by
    intro _ hmem
    simp [FSList.filesOf] at hmem
  | .cons (.file m dd) es, n, d => by
    intro hok hmem
    simp only [FSList.namesOkL, Bool.and_eq_true, Bool.not_eq_true'] at hok
    simp only [FSList.filesOf, List.mem_cons] at hmem
    rcases hmem with heq | hmem
    · cases heq
      exact hok.1
    · exact filesOf_namesOk es n d hok.2 hmem
  | .cons (.dir m cs) es, n, d => by
    intro hok hmem
    simp only [FSList.namesOkL, Bool.and_eq_true, Bool.not_eq_true'] at hok
    simp only [FSList.filesOf] at hmem
    exact filesOf_namesOk es n d hok.2 hmem

theorem dirsOf_namesOk : ∀ (l : FSList) (n : String) (cs : FSList),
    l.namesOkL = true → (n, cs) ∈ l.dirsOf →
    n.data.contains '/' = false ∧ cs.namesOkL = true
  | .nil, n, cs => by
    intro _ hmem
    simp [FSList.dirsOf] at hmem
  | .cons (.file m dd) es, n, cs => by
    intro hok hmem
    simp only [FSList.namesOkL, Bool.and_eq_true, Bool.not_eq_true'] at hok
    simp only [FSList.dirsOf] at hmem
    exact dirsOf_namesOk es n cs hok.2 hmem
  | .cons (.dir m ds) es, n, cs => by
    intro hok hmem
    simp only [FSList.namesOkL, Bool.and_eq_true, Bool.not_eq_true'] at hok
    simp only [FSList.dirsOf, List.mem_cons] at hmem
    rcases hmem with heq | hmem
    · cases heq
      exact ⟨hok.1.1, hok.1.2⟩
    · exact dirsOf_namesOk es n cs hok.2 hmem

theorem foldl_basename_no_slash :
    ∀ (l : List Char) (acc : List Char), l.contains '/' = false →
    l.foldl (fun acc c => if c = '/' then [] else acc ++ [c]) acc = acc ++ l := by
  intro l
  induction l with
  | nil => simp
  | cons c t ih =>
    intro acc h
    simp only [List.contains_cons, Bool.or_eq_false_iff] at h
    have hc : ¬ (c = '/') := by
      intro hc
      rw [hc] at h
      simp at h
    simp only [List.foldl_cons, if_neg hc]
    rw [ih (acc ++ [c]) h.2]
    simp

theorem basename_append (r n : String) (h : n.data.contains '/' = false) :
    basename (r ++ "/" ++ n) = n := by
  unfold basename
  have hdata : (r ++ "/" ++ n).data = (r.data ++ ['/']) ++ n.data := rfl
  rw [hdata, List.foldl_append, List.foldl_append]
  have hstep : ∀ acc : List Char,
      List.foldl (fun acc c => if c = '/' then [] else acc ++ [c]) acc ['/'] = [] := by
    intro acc
    simp
  rw [hstep, foldl_basename_no_slash n.data [] h]
  rfl

/-- No file whose name begins with `.` survives the walk when hidden entries
are not included: every emitted path's basename avoids the hidden marker.
Induction along the walk's fuel; names free of `/` make `basename` recover
the entry name from the joined path. -/
theorem walkAux_no_hidden : ∀ (fuel : Nat) (cfg : Config) (rules : List String)
    (root : String) (children : FSList) (p c : String),
    cfg.include_hidden = false → children.namesOkL = true →
    (p, c) ∈ (walkAux fuel cfg rules root children).1 →
    strStartsWith (basename p) "." = false := by
  intro fuel
  induction fuel with
  | zero =>
    intro cfg rules root children p c _ _ h
    simp [walkAux] at h
  | succ f ih =>
    intro cfg rules root children p c hh hok h
    rw [walkAux] at h
    rw [mem_concatResults] at h
    obtain ⟨r, hr, hpr⟩ := h
    rw [List.mem_append] at hr
    cases hr with
    | inl hf =>
      obtain ⟨nd, hnd, rfl⟩ := List.mem_map.1 hf
      have hpath := processWalkFile_path hpr
      have hnd2 := mem_sortFiles.1 hnd
      have hlf := mem_levelFiles hnd2
      have hsl := filesOf_namesOk children nd.1 nd.2 hok hlf.1
      rw [hpath, basename_append _ _ hsl]
      exact hlf.2 hh
    | inr hd =>
      obtain ⟨nd, hnd, rfl⟩ := List.mem_map.1 hd
      have hld := mem_levelDirs hnd
      have hdn := dirsOf_namesOk children nd.1 nd.2 hok hld.1
      exact ih cfg rules (root ++ "/" ++ nd.1) nd.2 p c hh hdn.2 hpr

/-- C2.  Hidden-file exclusion in the directory walk: without
`--include-hidden`, no emitted file of a directory root has a basename
starting with `.` (hidden files are dropped and hidden subdirectories are
pruned before descent), for every tree whose entry names are single path
segments; and with `--include-hidden` both a hidden file and the contents of
a hidden directory appear in the output (stated for a root listing one
hidden file and one hidden subdirectory with a file, with no other filters
configured, whenever the classifier deems the two files text). -/
theorem hidden_exclusion_spec :
    (∀ (cfg : Config) (rules : List String) (path : String) (children : FSList)
        (p c : String),
        cfg.include_hidden = false → children.namesOkL = true →
        (p, c) ∈ (process_local_path path (.dir children) cfg rules).output →
        strStartsWith (basename p) "." = false)
    ∧ (∀ hname dname fname : String,
        strStartsWith hname "." = true → strStartsWith dname "." = true →
        is_binary_file ("d" ++ "/" ++ hname) hiData = (false, []) →
        is_binary_file ("d" ++ "/" ++ dname ++ "/" ++ fname) hiData = (false, []) →
        (("d" ++ "/" ++ hname, "hi") ∈ (process_local_path "d"
            (.dir (.cons (.file hname hiData)
              (.cons (.dir dname (.cons (.file fname hiData) .nil)) .nil)))
            hiddenConfig []).output
        ∧ ("d" ++ "/" ++ dname ++ "/" ++ fname, "hi") ∈ (process_local_path "d"
            (.dir (.cons (.file hname hiData)
              (.cons (.dir dname (.cons (.file fname hiData) .nil)) .nil)))
            hiddenConfig []).output)) := by
  constructor
  · intro cfg rules path children p c hh hok h
    exact walkAux_no_hidden (children.depthL + 1) cfg rules path children p c hh hok h
  · intro hname dname fname _ _ hb1 hb2
    rw [show ("d" : String) ++ "/" = "d/" from rfl] at hb1 hb2
    have hstat : hiData.statError = false := rfl
    have hcont : hiData.content = [104, 105] := rfl
    have hdec : utf8DecodeString [104, 105] = some "hi" := by decide
    have houtput : (process_local_path "d"
        (.dir (.cons (.file hname hiData)
          (.cons (.dir dname (.cons (.file fname hiData) .nil)) .nil)))
        hiddenConfig []).output
        = [("d" ++ "/" ++ hname, "hi"), ("d" ++ "/" ++ dname ++ "/" ++ fname, "hi")] := by
      simp only [process_local_path]
      rw [show (FSList.cons (.file hname hiData)
        (.cons (.dir dname (.cons (.file fname hiData) .nil)) .nil)).depthL = 1 from rfl]
      simp [walkAux, levelFiles, levelDirs, hiddenFilter, gitignoreFilterFiles,
        gitignoreFilterDirs, patternFilterFiles, patternFilterDirs,
        FSList.filesOf, FSList.dirsOf, hiddenConfig, sortFiles,
        insertFile, processWalkFile, should_include_file, concatResults,
        hstat, hcont, hdec, hb1, hb2]
    rw [houtput]
    simp

/-- Closed instance of `hidden_exclusion_spec`: a concrete non-hidden emitted
file has a non-hidden basename, and a concrete hidden file is emitted once
`--include-hidden` is on. -/
theorem hidden_exclusion_spec_witness :
    strStartsWith (basename "d/a.txt") "." = false
    ∧ ("d" ++ "/" ++ ".h", "hi") ∈ (process_local_path "d"
        (.dir (.cons (.file ".h" hiData)
          (.cons (.dir ".sub" (.cons (.file "inner.txt" hiData) .nil)) .nil)))
        hiddenConfig []).output := by
  constructor
  · exact hidden_exclusion_spec.1 defaultConfig [] "d"
      (.cons (.file "a.txt" hiData) .nil) "d/a.txt" "hi" rfl (by decide) (by decide)
  · exact (hidden_exclusion_spec.2 ".h" ".sub" "inner.txt" (by decide) (by decide)
      (by decide) (by decide)).1

/-- C1 counterexample.  With two roots where the first does not exist, the
CLI raises `click.ClickException` at the first root and never attempts the
second, although the second root alone would have produced output: the
claim's "every sibling root is still attempted" fails. -/
theorem root_error_isolation_counterexample :
    cli_run defaultConfig [⟨"gone", .missing, none⟩, ⟨"f.txt", .file hiData, none⟩]
      = ⟨[], [.clickException "gone"], false⟩
    ∧ cli_run defaultConfig [⟨"f.txt", .file hiData, none⟩]
      = ⟨[("f.txt", "hi")], [], true⟩ := by
  decide

/-- C1 (amended).  A root that does not exist is reported and yields nothing,
and `process_local_path` itself contains the failure (error diagnostic,
return code 1, no exception); but the CLI loop escalates it to a
`click.ClickException` that aborts the invocation, so the roots after the
failing one are not attempted. -/
theorem root_error_isolation_amended :
    (∀ (path : String) (g : Option (List String)) (rest : List RootSpec)
        (cfg : Config),
        cli_run cfg (⟨path, .missing, g⟩ :: rest)
          = ⟨[], [.clickException path], false⟩)
    ∧ (∀ (path : String) (cfg : Config) (rules : List String),
        process_local_path path .missing cfg rules
          = ⟨[], [.errorProcessing path], 1⟩) :=
  ⟨fun _ _ _ _ => rfl, fun _ _ _ => rfl⟩

/-- The directory of spec Scenario 4: a file holding the single byte `0xFF`
next to a plain-text sibling. -/
def scenario4Tree : FSList :=
  .cons (.file "file.dat" ⟨[0xFF], 0, false, false⟩)
    (.cons (.file "text_file.txt" ⟨strBytes "This is a text file", 0, false, false⟩) .nil)

/-- C3 counterexample.  `0xFF` lies in the heuristic's `range(128, 256)` text
bytes, so the classifier reports *text*, not binary, for a single-`0xFF`
file with a non-binary extension. -/
theorem single_ff_byte_counterexample :
    is_binary_file "d/file.dat" ⟨[0xFF], 0, false, false⟩ = (false, []) := by
  decide

/-- C3 (amended).  The single-`0xFF` file is classified text by the content
heuristic, and is nevertheless excluded from the output — because its byte
is invalid UTF-8, so the text read fails and the walk skips it silently,
with no diagnostic; the plain-text sibling is still emitted. -/
theorem binary_scenario_amended :
    is_binary_content [0xFF] 1024 = false
    ∧ process_local_path "d" (.dir scenario4Tree) defaultConfig []
        = ⟨[("d/text_file.txt", "This is a text file")], [], 0⟩ := by
  decide

/-- C5 (amended).  For any admitted, text-classified content that fails
UTF-8 decoding: in a directory walk the file is silently skipped (no
diagnostic, return code 0) and the sibling is still emitted; but when the
root is the file itself, the decode failure escapes to the root-level
handler, which reports an error and fails the root with return code 1. -/
theorem decode_failure_amended :
    ∀ bs : List Nat,
      is_binary_file "d/bad.dat" ⟨bs, 0, false, false⟩ = (false, []) →
      utf8DecodeString bs = none →
      (process_local_path "d" (.dir (.cons (.file "bad.dat" ⟨bs, 0, false, false⟩)
          (.cons (.file "good.txt" hiData) .nil))) defaultConfig []
        = ⟨[("d/good.txt", "hi")], [], 0⟩
      ∧ process_local_path "d/bad.dat" (.file ⟨bs, 0, false, false⟩)
          defaultConfig []
        = ⟨[], [.errorProcessing "d/bad.dat"], 1⟩) := by
  intro bs hb hdec
  have hstat : hiData.statError = false := rfl
  have hcont : hiData.content = [104, 105] := rfl
  have hdec2 : utf8DecodeString [104, 105] = some "hi" := by decide
  have hsort : strLt "good.txt" "bad.dat" = false := by decide
  have hh1 : strStartsWith "bad.dat" "." = false := by decide
  have hh2 : strStartsWith "good.txt" "." = false := by decide
  have hbg : is_binary_file "d/good.txt" hiData = (false, []) := by decide
  constructor
  · simp only [process_local_path]
    rw [show (FSList.cons (.file "bad.dat" ⟨bs, 0, false, false⟩)
      (.cons (.file "good.txt" hiData) .nil)).depthL = 0 from rfl]
    simp [walkAux, levelFiles, levelDirs, hiddenFilter, gitignoreFilterFiles,
      gitignoreFilterDirs, patternFilterFiles, patternFilterDirs,
      FSList.filesOf, FSList.dirsOf, defaultConfig, sortFiles, insertFile,
      hsort, hh1, hh2, hbg, processWalkFile, should_include_file, concatResults,
      hstat, hcont, hdec2, hb, hdec]
  · simp [process_local_path, should_include_file, defaultConfig, hb, hdec]

/-- C5 counterexample.  For a file root whose content is the single invalid
byte `0xFF` (admitted, classified text), the decode failure is *not* a
silent skip: an error is reported and the root fails with return code 1 —
refuting the claim's "holds … when the root is the file itself". -/
theorem decode_failure_counterexample :
    process_local_path "d/bad.dat" (.file ⟨[0xFF], 0, false, false⟩)
        defaultConfig []
      = ⟨[], [.errorProcessing "d/bad.dat"], 1⟩ := by
  decide

/-- Closed instance of `decode_failure_amended` at content `[0xFF]`. -/
theorem decode_failure_amended_witness :
    process_local_path "d" (.dir (.cons (.file "bad.dat" ⟨[0xFF], 0, false, false⟩)
        (.cons (.file "good.txt" hiData) .nil))) defaultConfig []
      = ⟨[("d/good.txt", "hi")], [], 0⟩
    ∧ process_local_path "d/bad.dat" (.file ⟨[0xFF], 0, false, false⟩)
        defaultConfig []
      = ⟨[], [.errorProcessing "d/bad.dat"], 1⟩ :=
  decode_failure_amended [0xFF] (by decide) (by decide)

/-- C6.  The classifier is total by construction; when the file's read fails
with an I/O error (and the extension fast path did not already decide), it
returns the binary verdict `true` and prints a warning for the path. -/
theorem binary_classifier_fail_safe :
    ∀ (file_path : String) (d : FileData),
      d.readError = true →
      BINARY_EXTENSIONS.any (fun ext => strEndsWith (strLower file_path) ext) = false →
      is_binary_file file_path d = (true, [.readWarning file_path]) := by
  intro fp d hre hext
  simp [is_binary_file, hext, hre]

/-- Closed instance of `binary_classifier_fail_safe`. -/
theorem binary_classifier_fail_safe_witness :
    is_binary_file "notes.txt" ⟨[], 0, false, true⟩
      = (true, [.readWarning "notes.txt"]) :=
  binary_classifier_fail_safe "notes.txt" ⟨[], 0, false, true⟩ rfl (by decide)

/-- C7.  When the stat succeeds and the extension, regex and
modification-time checks pass, the inclusion predicate admits the file
exactly when its size is at least the configured minimum and at most the
configured maximum — both bounds inclusive (an absent bound constrains
nothing). -/
theorem size_bounds_inclusive :
    ∀ (file_path : String) (extensions : List String)
      (regex_pattern : Option (String → Bool)) (min_size max_size : Option Nat)
      (modified_after : Option Int) (d : FileData),
      d.statError = false →
      (!extensions.isEmpty
        && !(extensions.any (fun ext => strEndsWith file_path ext))) = false →
      (match regex_pattern with | some r => !(r file_path) | none => false) = false →
      (match modified_after with
       | some t => decide (d.mtime < t)
       | none => false) = false →
      (should_include_file file_path extensions regex_pattern min_size max_size
          modified_after d = true ↔
        ((match min_size with | some m => m ≤ d.content.length | none => True) ∧
         (match max_size with | some m => d.content.length ≤ m | none => True))) := by
  intro fp exts rx mn mx ma d hstat hext hrx hma
  unfold should_include_file
  rw [hext, hrx, hstat, hma]
  cases mn with
  | none =>
    cases mx with
    | none => simp
    | some M => simp [Nat.not_lt]
  | some m =>
    cases mx with
    | none => simp [Nat.not_lt]
    | some M =>
      by_cases h1 : d.content.length < m
      · simp [h1]
        try omega
      · by_cases h2 : M < d.content.length
        · simp [h1, h2]
          try omega
        · simp [h1, h2]
          try omega

/-- Closed instance of `size_bounds_inclusive`: a 5-byte file is admitted
when both bounds equal 5. -/
theorem size_bounds_inclusive_witness :
    should_include_file "a.txt" [] none (some 5) (some 5) none
      ⟨[0, 1, 2, 3, 4], 0, false, false⟩ = true :=
  (size_bounds_inclusive "a.txt" [] none (some 5) (some 5) none
    ⟨[0, 1, 2, 3, 4], 0, false, false⟩ rfl rfl rfl rfl).mpr ⟨by decide, by decide⟩

/-- C8 counterexample.  The extension fast path runs before the empty check:
an empty file named `a.png` is classified binary, refuting "regardless of
the file's name or extension". -/
theorem empty_file_counterexample :
    is_binary_file "a.png" ⟨[], 0, false, false⟩ = (true, []) := by
  decide

/-- C8 (amended).  A readable empty file whose (lower-cased) name does not
end in a known-binary extension is classified text. -/
theorem empty_file_amended :
    ∀ (file_path : String) (mt : Int),
      BINARY_EXTENSIONS.any (fun ext => strEndsWith (strLower file_path) ext) = false →
      is_binary_file file_path ⟨[], mt, false, false⟩ = (false, []) := by
  intro fp mt hext
  simp [is_binary_file, hext]

/-- Closed instance of `empty_file_amended` (note the hidden name: the name
is irrelevant once the extension fast path does not fire). -/
theorem empty_file_amended_witness :
    is_binary_file ".hidden" ⟨[], 0, false, false⟩ = (false, []) :=
  empty_file_amended ".hidden" 0 (by decide)

/-- C9.  Reading the rules file: no file gives the empty rule list, which
matches nothing; a file yields, in file order, the stripped content of
exactly the lines that are non-blank after stripping and do not begin with
`#`, with no other normalization. -/
theorem gitignore_rules_spec :
    read_gitignore none = []
    ∧ (∀ (path : String) (is_dir : Bool), should_ignore path is_dir [] = false)
    ∧ (∀ lines : List String,
        read_gitignore (some lines) =
          (lines.filter (fun line =>
            pyStrip line != "" && !(strStartsWith line "#"))).map pyStrip)
    ∧ (∀ (lines : List String) (s : String),
        s ∈ read_gitignore (some lines) ↔
          ∃ line ∈ lines, pyStrip line ≠ "" ∧ strStartsWith line "#" = false
            ∧ s = pyStrip line) := by
  refine ⟨rfl, fun _ _ => rfl, fun _ => rfl, fun lines s => ?_⟩
  simp only [read_gitignore, List.mem_map, List.mem_filter, Bool.and_eq_true,
    bne_iff_ne, Bool.not_eq_true']
  constructor
  · rintro ⟨line, ⟨hmem, hkeep⟩, heq⟩
    exact ⟨line, hmem, hkeep.1, hkeep.2, heq.symm⟩
  · rintro ⟨line, hmem, h1, h2, heq⟩
    exact ⟨line, ⟨hmem, h1, h2⟩, heq.symm⟩

/-- C10 counterexample.  A root file named `.x` holding the single byte
`0xFF` is admitted by the inclusion predicate and classified text, yet
nothing is emitted (its decode fails), refuting "emitted exactly when the
inclusion predicate admits it and the binary classifier returns text". -/
theorem file_root_counterexample :
    should_include_file ".x" defaultConfig.extensions defaultConfig.regex_pattern
        defaultConfig.min_size defaultConfig.max_size defaultConfig.modified_after
        ⟨[0xFF], 0, false, false⟩ = true
    ∧ (is_binary_file ".x" ⟨[0xFF], 0, false, false⟩).1 = false
    ∧ (process_local_path ".x" (.file ⟨[0xFF], 0, false, false⟩)
        defaultConfig []).output = [] := by
  decide

/-- C10 (amended).  A file root never consults the hidden-name filter, the
gitignore rules or the `--ignore` patterns — the result depends only on the
criteria fields — and its output is exactly the decoded content when the
inclusion predicate admits the file, the classifier says text, and the
bytes decode as UTF-8 (so a hidden-named or rule-matching root file is
still emitted). -/
theorem file_root_amended :
    (∀ (path : String) (d : FileData) (cfg1 cfg2 : Config)
        (rules1 rules2 : List String),
        cfg1.extensions = cfg2.extensions →
        cfg1.regex_pattern = cfg2.regex_pattern →
        cfg1.min_size = cfg2.min_size →
        cfg1.max_size = cfg2.max_size →
        cfg1.modified_after = cfg2.modified_after →
        process_local_path path (.file d) cfg1 rules1
          = process_local_path path (.file d) cfg2 rules2)
    ∧ (∀ (path : String) (d : FileData) (cfg : Config) (rules : List String),
        (process_local_path path (.file d) cfg rules).output =
          if should_include_file path cfg.extensions cfg.regex_pattern
              cfg.min_size cfg.max_size cfg.modified_after d
              && !(is_binary_file path d).1 then
            (match utf8DecodeString d.content with
             | some s => [(path, s)]
             | none => [])
          else []) := by
  constructor
  · intro path d cfg1 cfg2 rules1 rules2 h1 h2 h3 h4 h5
    simp only [process_local_path, h1, h2, h3, h4, h5]
  · intro path d cfg rules
    by_cases h1 : should_include_file path cfg.extensions cfg.regex_pattern
        cfg.min_size cfg.max_size cfg.modified_after d
    · by_cases h2 : (is_binary_file path d).1
      · simp [process_local_path, h1, h2]
      · cases hdec : utf8DecodeString d.content with
        | some s => simp [process_local_path, h1, h2, hdec]
        | none => simp [process_local_path, h1, h2, hdec]
    · simp [process_local_path, h1]

/-- Closed instance of `file_root_amended`: the result for a hidden-named
root file is unchanged by `--include-hidden` and an ignore pattern that
would match it. -/
theorem file_root_amended_witness :
    process_local_path ".x" (.file hiData) defaultConfig []
      = process_local_path ".x" (.file hiData) hiddenConfig ["*.txt"] :=
  file_root_amended.1 ".x" hiData defaultConfig hiddenConfig [] ["*.txt"]
    rfl rfl rfl rfl rfl

/-- The byte set of the spec's statistical heuristic: printable ASCII
`0x20`-`0x7E`, the extended range `0x80`-`0xFF`, and newline, carriage
return, tab, form-feed, backspace. -/
def specTextByte (b : Nat) : Bool :=
  (0x20 ≤ b && b ≤ 0x7E) || (0x80 ≤ b && b ≤ 0xFF)
    || b == 10 || b == 13 || b == 9 || b == 12 || b == 8

theorem text_characters_contains (b : Nat) :
    text_characters.contains b = specTextByte b := by
  rw [Bool.eq_iff_iff]
  simp only [text_characters, specTextByte, List.contains, List.elem_iff,
    List.mem_append, List.mem_range'_1, List.mem_cons, List.not_mem_nil,
    Bool.or_eq_true, Bool.and_eq_true, decide_eq_true_eq, beq_iff_eq, or_false]
  constructor
  · intro h
    omega
  · intro h
    omega

/-- C4.  For non-empty content, the heuristic verdict is binary exactly when
a NUL byte occurs in the first 1024 bytes, or the fraction of those bytes
lying outside the spec's text-byte set exceeds `3/10` (the source's float
comparison against `0.30` agrees with this exact rational comparison). -/
theorem statistical_heuristic_spec :
    ∀ content : List Nat, content ≠ [] →
      (is_binary_content content 1024 = true ↔
        ((0 : Nat) ∈ content.take 1024 ∨
          (((content.take 1024).countP (fun b => !(specTextByte b)) : ℚ)
              / ((content.take 1024).length : ℚ) > 3 / 10))) := by
  intro content hne
  have hlen : 0 < (content.take 1024).length := by
    cases content with
    | nil => exact absurd rfl hne
    | cons a t => simp [List.length_take]
  have hpred : (fun b => !(text_characters.contains b))
      = (fun b => !(specTextByte b)) := by
    funext b
    rw [text_characters_contains]
  unfold is_binary_content
  rw [hpred]
  split
  · rename_i h0
    simp only [true_iff]
    exact Or.inl (List.elem_iff.mp h0)
  · rename_i h0
    have h0' : (0 : Nat) ∉ content.take 1024 := by
      intro hmem
      exact h0 (List.elem_iff.mpr hmem)
    rw [decide_eq_true_eq]
    constructor
    · intro h
      refine Or.inr ?_
      rw [gt_iff_lt, div_lt_div_iff₀ (by norm_num) (by exact_mod_cast hlen)]
      have h2 : ((3 * (content.take 1024).length : Nat) : ℚ)
          < ((10 * (content.take 1024).countP (fun b => !(specTextByte b)) : Nat) : ℚ) := by
        exact_mod_cast h
      push_cast at h2
      linarith
    · intro h
      rcases h with hmem | hf
      · exact absurd hmem h0'
      · rw [gt_iff_lt, div_lt_div_iff₀ (by norm_num) (by exact_mod_cast hlen)] at hf
        have h2 : ((3 * (content.take 1024).length : Nat) : ℚ)
            < ((10 * (content.take 1024).countP (fun b => !(specTextByte b)) : Nat) : ℚ) := by
          push_cast
          linarith
        exact_mod_cast h2

/-- Closed instance of `statistical_heuristic_spec` at content `[0]`. -/
theorem statistical_heuristic_spec_witness :
    is_binary_content [0] 1024 = true ↔
      ((0 : Nat) ∈ ([0] : List Nat).take 1024 ∨
        ((((([0] : List Nat).take 1024).countP (fun b => !(specTextByte b))) : ℚ)
            / ((([0] : List Nat).take 1024).length : ℚ) > 3 / 10)) :=
  statistical_heuristic_spec [0] (by decide)
